import Mathlib

/-!
Verification of the in-memory forum data logic of
`src/tools/cldr-apps/WebContent/js/CldrStForum.js`.

The module keeps four pieces of persistent state (`forumLocale`,
`forumUpdateTime`, `postHash`, `threadHash`) and reconstructs
thread/reply relationships from a flat list of posts fetched from the
server.  We embed the relevant functions shallowly:

* JS objects used as maps (`postHash`, `threadHash`) become association
  lists; a write prepends (so `List.lookup`, which returns the first
  match, sees the latest write), except for `threadHash` whose JS
  insertion order we keep by appending new keys at the end, as the
  source does.
* The JS mutation `post.threadId = ...` performed by `addThreadIds` is
  modelled by pairing each post with its computed thread id (`TPost`).
* The unbounded `while` loop of `getOldestPostInThread` is modelled
  with an explicit iteration bound (`fuel`); termination under an
  acyclic parent relation is proved separately.
* DOM construction is not modelled; the reparenting decisions of
  `parseContent` and the order in which `filterAndAssembleForumThreads`
  appends thread containers are modelled as pure values.
* `Date.now()` is abstracted to the presence bit of the timestamp
  (`forumUpdateTime` is `null` or a number in the source; only
  null-ness is ever branched on).
-/

/-- A forum post as delivered by the server (`json.ret` entries).
Fields are the ones read by the functions under verification:
`id` and `parent` are post ids (JS numbers; `parent` is `-1` for a
top-level post), `locale` like "fr", `xpath`, `subject`, `status`
(set by the server to a verb such as "Request"), and `poster` (the
posting user's id, compared with the `surveyUser` global). -/
structure Post where
  id : Int
  parent : Int
  locale : String
  xpath : String
  subject : String
  status : String
  poster : Int
deriving DecidableEq

/-- A post together with the `threadId` attribute that `addThreadIds`
attaches to the post object by mutation. -/
structure TPost where
  post : Post
  threadId : String
deriving DecidableEq

/-- The module-level `postHash`: mapping from post id to post object.
Writes prepend, so `List.lookup` (first match) returns the latest write,
like assignment to a JS object property. -/
abbrev PostHash := List (Int × Post)

/-- The module-level `threadHash`: mapping from thread id to the array
of posts in that thread, in JS object insertion order. -/
abbrev ThreadHash := List (String × List TPost)

/-- The module state: `forumLocale`, `forumUpdateTime` (modelled as a
presence bit: `false` for JS `null`), `postHash` and `threadHash`.
All four start out empty/null when the module is loaded. -/
structure ForumState where
  forumLocale : Option String
  forumUpdateTime : Bool
  postHash : PostHash
  threadHash : ThreadHash
deriving DecidableEq

/-- The state at module load: `forumLocale = null`,
`forumUpdateTime = null`, `postHash = {}`, `threadHash = {}`. -/
def initialForumState : ForumState :=
  { forumLocale := none, forumUpdateTime := false, postHash := [], threadHash := [] }

/-- `updatePostHash`: `posts.forEach(post => postHash[post.id] = post)`. -/
def updatePostHash (h : PostHash) (posts : List Post) : PostHash :=
  posts.foldl (fun acc p => (p.id, p) :: acc) h

/-- One iteration condition/step of the `while` loop in
`getOldestPostInThread`: the loop continues exactly when
`post.parent >= 0 && postHash[post.parent]` is truthy, moving to the
parent post found in the index. -/
def stepParent (h : PostHash) (p : Post) : Option Post :=
  if p.parent ≥ 0 then h.lookup p.parent else none

/-- `getOldestPostInThread`: walk `parent` links through `postHash`
until reaching a post whose parent is negative or absent from the
index.  `fuel` bounds the number of loop iterations; the source loop
is unbounded and its termination needs the parent relation to be
acyclic (proved below). -/
def getOldestPostInThread (h : PostHash) : Nat → Post → Post
  | 0, p => p
  | Nat.succ fuel, p =>
    match stepParent h p with
    | some q => getOldestPostInThread h fuel q
    | none => p

/-- `p` is where the `while` loop of `getOldestPostInThread` stops:
its parent is `-1` (any negative) or absent from the index. -/
def isRoot (h : PostHash) (p : Post) : Prop :=
  stepParent h p = none

instance (h : PostHash) (p : Post) : Decidable (isRoot h p) := by
  unfold isRoot; infer_instance

/-- The thread id computed for one post by `addThreadIds`:
`firstPost.locale + "|" + firstPost.id`. -/
def threadIdOf (h : PostHash) (fuel : Nat) (p : Post) : String :=
  let firstPost := getOldestPostInThread h fuel p
  firstPost.locale ++ "|" ++ toString firstPost.id

/-- `addThreadIds`: attach `post.threadId` to every post in the array. -/
def addThreadIds (h : PostHash) (fuel : Nat) (posts : List Post) : List TPost :=
  posts.map (fun p => { post := p, threadId := threadIdOf h fuel p })

/-- One step of `updateThreadHash`:
`if (!(threadId in threadHash)) threadHash[threadId] = [];
threadHash[threadId].push(post)`.  A new key is inserted at the end
(JS object insertion order); the post is pushed at the end of its
thread's array. -/
def threadPut (tH : ThreadHash) (tp : TPost) : ThreadHash :=
  if (tH.lookup tp.threadId).isSome then
    tH.map (fun e => if e.1 = tp.threadId then (e.1, e.2 ++ [tp]) else e)
  else
    tH ++ [(tp.threadId, [tp])]

/-- `updateThreadHash`: `posts.forEach(...)` with `threadPut`. -/
def updateThreadHash (tH : ThreadHash) (posts : List TPost) : ThreadHash :=
  posts.foldl threadPut tH

/-- `updateForumData(posts, fullSet)`: on a full set, reset `postHash`
and `threadHash`; then `updatePostHash`, `addThreadIds`,
`updateThreadHash`, and set the refresh timestamp.  Returns the new
state together with the posts carrying their attached thread ids. -/
def updateForumData (fuel : Nat) (st : ForumState) (posts : List Post)
    (fullSet : Bool) : ForumState × List TPost :=
  let st0 := if fullSet then { st with postHash := [], threadHash := [] } else st
  let ph := updatePostHash st0.postHash posts
  let tposts := addThreadIds ph fuel posts
  let tH := updateThreadHash st0.threadHash tposts
  ({ st0 with postHash := ph, threadHash := tH, forumUpdateTime := true }, tposts)

/-- `setLocale(locale)`: if the locale differs from the loaded one,
set `forumLocale`, null out `forumUpdateTime`, and reset `postHash`.
(The source does not touch `threadHash` here.) -/
def setLocale (st : ForumState) (locale : String) : ForumState :=
  if some locale ≠ st.forumLocale then
    { st with forumLocale := some locale, forumUpdateTime := false, postHash := [] }
  else st

/-- `getNewestPostInThread(post)`: `threadHash[post.threadId][0]`.
`none` models the `TypeError`/`undefined` of a missing thread or an
empty array. -/
def getNewestPostInThread (tH : ThreadHash) (tp : TPost) : Option TPost :=
  match tH.lookup tp.threadId with
  | some l => l.head?
  | none => none

/-- One pass of a JS `String.replace(/pat/g, rep)` over a character
list: leftmost, non-overlapping, the replacement text is not rescanned.
The `Nat` argument bounds the recursion structurally; with bound
`≥ length of the input` it never runs out, since every step consumes
at least one character. -/
def replaceAllChars (pat rep : List Char) : Nat → List Char → List Char
  | _, [] => []
  | 0, l => l
  | Nat.succ fuel, c :: cs =>
    if pat ≠ [] ∧ pat.isPrefixOf (c :: cs) then
      rep ++ replaceAllChars pat rep fuel ((c :: cs).drop pat.length)
    else
      c :: replaceAllChars pat rep fuel cs

/-- `out.replace(/pat/g, rep)` on strings. -/
def replaceAllStr (s pat rep : String) : String :=
  String.mk (replaceAllChars pat.data rep.data s.data.length s.data)

/-- `post2text(text)`: substitute `"(empty)"` for a missing text, then
undo some html escaping (`<p>`, `&quot;`, `&lt;`, `&gt;`, `&amp;`),
in the source's order. -/
def post2text (text : Option String) : String :=
  let t := match text with
    | none => "(empty)"
    | some s => s
  let out := replaceAllStr t "<p>" "\n"
  let out := replaceAllStr out "&quot;" "\x22"
  let out := replaceAllStr out "&lt;" "<"
  let out := replaceAllStr out "&gt;" ">"
  replaceAllStr out "&amp;" "&"

/-- `makePostSubject(isReply, parentPost, subjectParam)`: for a reply
with a parent, decode the parent's subject and prepend `"Re: "` unless
its first three characters are `"Re:"`; otherwise return
`subjectParam`. -/
def makePostSubject (isReply : Bool) (parentPost : Option Post)
    (subjectParam : String) : String :=
  match isReply, parentPost with
  | true, some pp =>
    let subject := post2text (some pp.subject)
    if subject.take 3 ≠ "Re:" then "Re: " ++ subject else subject
  | _, _ => subjectParam

/-- Modelled from the spec: the spec's description of the synthesized
reply subject, `"Re: " prefix only if absent` — the parent's decoded
subject with `"Re: "` prepended exactly when that four-character
prefix is absent.  Stated for comparison with `makePostSubject`, which
tests the three-character prefix `"Re:"` instead. -/
def makePostSubjectSpec (isReply : Bool) (parentPost : Option Post)
    (subjectParam : String) : String :=
  match isReply, parentPost with
  | true, some pp =>
    let subject := post2text (some pp.subject)
    if subject.take 4 = "Re: " then subject else "Re: " ++ subject
  | _, _ => subjectParam

/-- JS truthiness of the `myValue` parameter (`null`, or the string
value the user voted for): `null` and the empty string are falsy. -/
def truthy : Option String → Bool
  | none => false
  | some s => !(s == "")

/-- `userIsPoster(post)`: `surveyUser === post.poster`, where the
external global `surveyUser` may be undefined (`none`). -/
def userIsPoster (surveyUser : Option Int) (post : Post) : Bool :=
  match surveyUser with
  | some u => u == post.poster
  | none => false

/-- `threadIsClosed(firstPost)`: delegate to the external
`cldrStForumFilter.passIfClosed(threadHash[firstPost.threadId])`.
The external predicate `passIfClosed` is a parameter (its source file
is not part of this repository); a missing key passes JS `undefined`,
modelled as `none`. -/
def threadIsClosed (passIfClosed : Option (List TPost) → Bool)
    (tH : ThreadHash) (firstPost : TPost) : Bool :=
  passIfClosed (tH.lookup firstPost.threadId)

/-- `userCanClose(isReply, firstPost)`:
`isReply && !threadIsClosed(firstPost) && (userIsPoster(firstPost) || userIsTC())`.
When `isReply` is true and `firstPost` is `null`, the source throws a
`TypeError` inside `threadIsClosed` (`firstPost.threadId`); that is
modelled as `none`.  `isTC` models the external
`surveyUserPerms.userIsTC` global. -/
def userCanClose (passIfClosed : Option (List TPost) → Bool) (tH : ThreadHash)
    (surveyUser : Option Int) (isTC : Bool) (isReply : Bool)
    (firstPost : Option TPost) : Option Bool :=
  if isReply then
    match firstPost with
    | none => none
    | some fp =>
      some (!threadIsClosed passIfClosed tH fp &&
        (userIsPoster surveyUser fp.post || isTC))
  else some false

/-- `getStatusOptions(isReply, firstPost, myValue)`: the ordered set of
allowed post-type verbs, as the insertion order of the returned JS
object's keys.  `none` models the `TypeError` propagated from
`userCanClose` when `isReply` is true and `firstPost` is `null`. -/
def getStatusOptions (passIfClosed : Option (List TPost) → Bool)
    (tH : ThreadHash) (surveyUser : Option Int) (isTC : Bool) (isReply : Bool)
    (firstPost : Option TPost) (myValue : Option String) :
    Option (List String) :=
  (userCanClose passIfClosed tH surveyUser isTC isReply firstPost).map
    (fun canClose =>
      (if truthy myValue && !isReply then ["Request"] else []) ++
      ["Discuss"] ++
      (match isReply, firstPost with
       | true, some fp =>
         if !userIsPoster surveyUser fp.post && (fp.post.status == "Request")
         then ["Agree", "Decline"] else []
       | _, _ => []) ++
      (if canClose then ["Close"] else []))

/-- Keep the first occurrence of each element, drop the rest.  This is
the key set, in insertion order, of a JS object filled by a loop that
inserts under each list element's key when not yet present (the
`topicDivs` creation loop of `parseContent`, and the keys of
`threadHash`). -/
def dedupKeepFirst : List String → List String
  | [] => []
  | x :: xs => x :: dedupKeepFirst (xs.filter (fun y => y != x))
termination_by l => l.length
decreasing_by
  simp only [List.length_cons]
  exact Nat.lt_succ_of_le (List.length_filter_le _ _)

/-- The ids under which `parseContent` creates a post div (`postDivs`):
one per post in the array. -/
def postIds (posts : List TPost) : List Int :=
  posts.map (fun tp => tp.post.id)

/-- The thread ids under which `parseContent` creates a topic div
(`topicDivs`): the distinct `threadId`s, first occurrence first. -/
def topicDivKeys (posts : List TPost) : List String :=
  dedupKeepFirst (posts.map TPost.threadId)

/-- Where the reparenting loop of `parseContent` attaches a post's
div: under the replies area of its parent's div, or directly under a
thread's topic div. -/
inductive AttachTarget where
  | thread : String → AttachTarget
  | parentReplies : Int → AttachTarget
deriving DecidableEq

/-- The attachment decision of the reparenting loop for one post:
a reply (`parent != -1`) goes under its parent's replies area when the
parent has a div (`postDivs[post.parent]` truthy), otherwise directly
under `topicDivs[post.threadId]`; a top-level post goes under
`topicDivs[post.threadId]`. -/
def reparentTarget (posts : List TPost) (tp : TPost) : AttachTarget :=
  if tp.post.parent != -1 then
    if (postIds posts).contains tp.post.parent then
      AttachTarget.parentReplies tp.post.parent
    else
      AttachTarget.thread tp.threadId
  else
    AttachTarget.thread tp.threadId

/-- The whole reparenting loop of `parseContent`: every post's div is
attached somewhere (no post is dropped). -/
def reparentAll (posts : List TPost) : List (Int × AttachTarget) :=
  posts.map (fun tp => (tp.post.id, reparentTarget posts tp))

/-- `filterAndAssembleForumThreads(posts, ...)`: walk the posts from
newest to oldest; when a post's thread id is still in `filteredArray`
(the result of the external
`cldrStForumFilter.getFilteredThreadIds(threadHash, applyFilter)`,
taken here as a parameter), append that thread's topic div and remove
the id from the array so the div is appended only once.  The value
returned here is the sequence of thread ids whose divs get appended,
in order. -/
def filterAndAssembleForumThreads : List TPost → List String → List String
  | [], _ => []
  | tp :: rest, filteredArray =>
    if filteredArray.contains tp.threadId then
      tp.threadId ::
        filterAndAssembleForumThreads rest
          (filteredArray.filter (fun id => id != tp.threadId))
    else
      filterAndAssembleForumThreads rest filteredArray

/-! ### Shared example posts (the spec's worked example) -/

/-- The root post `{id:5, parent:-1, locale:"fr"}` of the spec's example. -/
def post5fr : Post :=
  { id := 5, parent := -1, locale := "fr", xpath := "", subject := "", status := "", poster := 1 }

/-- The reply `{id:9, parent:5, locale:"fr"}` of the spec's example. -/
def post9fr : Post :=
  { id := 9, parent := 5, locale := "fr", xpath := "", subject := "", status := "", poster := 2 }

/-! ### The parent walk: helper lemmas -/

/-- A successful `List.lookup` returns an entry of the list. -/
theorem lookup_mem {α β : Type} [BEq α] [LawfulBEq α] {k : α} {v : β} :
    ∀ {l : List (α × β)}, l.lookup k = some v → (k, v) ∈ l := by
  intro l
  induction l with
  | nil => intro hl; simp [List.lookup] at hl
  | cons e t ih =>
    obtain ⟨k', v'⟩ := e
    intro hl
    rw [List.lookup_cons] at hl
    cases hbeq : k == k' with
    | true =>
      rw [hbeq] at hl
      simp only [Option.some.injEq] at hl
      subst hl
      exact List.mem_cons.mpr (Or.inl (by rw [eq_of_beq hbeq]))
    | false =>
      rw [hbeq] at hl
      exact List.mem_cons.mpr (Or.inr (ih hl))

/-- The post found by one step of the parent walk is a value of the index. -/
theorem stepParent_value {h : PostHash} {p q : Post}
    (hs : stepParent h p = some q) : ∃ k, (k, q) ∈ h := by
  unfold stepParent at hs
  by_cases hge : p.parent ≥ 0
  · rw [if_pos hge] at hs
    exact ⟨p.parent, lookup_mem hs⟩
  · rw [if_neg hge] at hs
    cases hs

/-- If a rank function `m` decreases along every parent step out of an
index value, the walk reaches a root once the iteration bound exceeds
the rank of the start post. -/
theorem walk_isRoot (h : PostHash) (m : Post → Nat)
    (hm : ∀ a b, (∃ k, (k, a) ∈ h) → stepParent h a = some b → m b < m a) :
    ∀ (fuel : Nat) (p : Post), m p < fuel →
      (∀ q, stepParent h p = some q → m q < m p) →
      isRoot h (getOldestPostInThread h fuel p) := by
  intro fuel
  induction fuel with
  | zero => intro p hp _; omega
  | succ n ih =>
    intro p hp hstart
    cases hq : stepParent h p with
    | none =>
      simp [getOldestPostInThread, hq, isRoot]
    | some q =>
      simp only [getOldestPostInThread, hq]
      exact ih q (by have := hstart q hq; omega)
        (fun r hr => hm q r (stepParent_value hq) hr)

/-- Under the same rank hypothesis, the walk's result does not depend
on the iteration bound, once the bound exceeds the start post's rank:
the source's unbounded `while` loop terminates with this value. -/
theorem walk_stable (h : PostHash) (m : Post → Nat)
    (hm : ∀ a b, (∃ k, (k, a) ∈ h) → stepParent h a = some b → m b < m a) :
    ∀ (fuel₁ fuel₂ : Nat) (p : Post), m p < fuel₁ → m p < fuel₂ →
      (∀ q, stepParent h p = some q → m q < m p) →
      getOldestPostInThread h fuel₁ p = getOldestPostInThread h fuel₂ p := by
  intro fuel₁
  induction fuel₁ with
  | zero => intro fuel₂ p h1 _ _; omega
  | succ n ih =>
    intro fuel₂ p h1 h2 hstart
    cases fuel₂ with
    | zero => omega
    | succ n₂ =>
      cases hq : stepParent h p with
      | none => simp [getOldestPostInThread, hq]
      | some q =>
        simp only [getOldestPostInThread, hq]
        exact ih n₂ q (by have := hstart q hq; omega)
          (by have := hstart q hq; omega)
          (fun r hr => hm q r (stepParent_value hq) hr)

/-- C9: for every starting post and post index whose parent links are
acyclic — witnessed by a rank function `m` that strictly decreases
along each parent step taken from the start post or from any post
stored in the index — the walk of `getOldestPostInThread` terminates:
any iteration bound larger than the start post's rank makes the walk
stop at a root, and the result no longer depends on the bound. -/
theorem getOldestPostInThread_terminates (h : PostHash) (m : Post → Nat)
    (p : Post) (fuel fuel₂ : Nat)
    (hm : ∀ a b, (∃ k, (k, a) ∈ h) → stepParent h a = some b → m b < m a)
    (hp : ∀ q, stepParent h p = some q → m q < m p)
    (h₁ : m p < fuel) (h₂ : m p < fuel₂) :
    isRoot h (getOldestPostInThread h fuel p) ∧
      getOldestPostInThread h fuel p = getOldestPostInThread h fuel₂ p :=
  ⟨walk_isRoot h m hm fuel p h₁ hp,
   walk_stable h m hm fuel fuel₂ p h₁ h₂ hp⟩

/-- Witness for C9 at the spec's example thread: with index
`{5 ↦ post5fr, 9 ↦ post9fr}` the walk from `post9fr` stops at a root
with two iterations allowed and gives the same result with five. -/
theorem getOldestPostInThread_terminates_witness :
    isRoot [(5, post5fr), (9, post9fr)]
        (getOldestPostInThread [(5, post5fr), (9, post9fr)] 2 post9fr) ∧
      getOldestPostInThread [(5, post5fr), (9, post9fr)] 2 post9fr =
        getOldestPostInThread [(5, post5fr), (9, post9fr)] 5 post9fr := by
  have hnone : stepParent [(5, post5fr), (9, post9fr)] post5fr = none := by decide
  have hsome : stepParent [(5, post5fr), (9, post9fr)] post9fr = some post5fr := by decide
  refine getOldestPostInThread_terminates [(5, post5fr), (9, post9fr)]
    (fun p => if p.id = 5 then 0 else 1) post9fr 2 5 ?_ ?_ (by decide) (by decide)
  · intro a b hk hstep
    obtain ⟨k, hk⟩ := hk
    rcases List.mem_cons.mp hk with h5 | hk2
    · have : a = post5fr := congrArg Prod.snd h5
      subst this
      rw [hnone] at hstep
      cases hstep
    · rcases List.mem_cons.mp hk2 with h9 | habs
      · have : a = post9fr := congrArg Prod.snd h9
        subst this
        rw [hsome] at hstep
        have : b = post5fr := (Option.some.injEq _ _).mp hstep.symm
        subst this
        decide
      · cases habs
  · intro q hq
    rw [hsome] at hq
    have : q = post5fr := (Option.some.injEq _ _).mp hq.symm
    subst this
    decide

/-! ### Thread ids (C1) -/

/-- C1: on a full-set run of `updateForumData`, every post's attached
`threadId` is the locale of its transitive root ancestor, then `"|"`,
then that root ancestor's id, where the root ancestor is obtained by
following parent links through the freshly rebuilt post index until a
post whose parent is `-1` (negative) or absent from the index is
reached.  The hypothesis says the walk from each post reaches such a
root within the allowed iterations (the loop terminates). -/
theorem addThreadIds_threadId_format (st : ForumState) (posts : List Post)
    (fuel : Nat) (tp : TPost)
    (hmem : tp ∈ (updateForumData fuel st posts true).2)
    (hterm : ∀ p ∈ posts,
      isRoot (updatePostHash [] posts)
        (getOldestPostInThread (updatePostHash [] posts) fuel p)) :
    tp.threadId =
      (getOldestPostInThread (updatePostHash [] posts) fuel tp.post).locale
        ++ "|" ++
        toString (getOldestPostInThread (updatePostHash [] posts) fuel tp.post).id
      ∧
    isRoot (updatePostHash [] posts)
      (getOldestPostInThread (updatePostHash [] posts) fuel tp.post) := by
  have h2 : (updateForumData fuel st posts true).2 =
      addThreadIds (updatePostHash [] posts) fuel posts := rfl
  rw [h2] at hmem
  simp only [addThreadIds, List.mem_map] at hmem
  obtain ⟨p, hp, rfl⟩ := hmem
  exact ⟨rfl, hterm p hp⟩

/-- Witness for C1: the spec's example posts
`[{id:5,parent:-1,locale:"fr"}, {id:9,parent:5,locale:"fr"}]` both get
threadId `"fr|5"`, and the theorem applies to the reply. -/
theorem addThreadIds_threadId_format_witness :
    ((updateForumData 2 initialForumState [post5fr, post9fr] true).2.map
        TPost.threadId = ["fr|5", "fr|5"]) ∧
      (TPost.mk post9fr "fr|5").threadId =
        (getOldestPostInThread (updatePostHash [] [post5fr, post9fr]) 2 post9fr).locale
          ++ "|" ++
          toString (getOldestPostInThread (updatePostHash [] [post5fr, post9fr]) 2 post9fr).id
        ∧
      isRoot (updatePostHash [] [post5fr, post9fr])
        (getOldestPostInThread (updatePostHash [] [post5fr, post9fr]) 2 post9fr) := by
  refine ⟨by decide, ?_⟩
  exact addThreadIds_threadId_format initialForumState [post5fr, post9fr] 2
    (TPost.mk post9fr "fr|5") (by decide) (by decide)

/-! ### Locale switch (C2) -/

/-- Counterexample to C2 as stated: `setLocale` to a different locale
does not clear the thread index.  With a loaded locale `"fr"`, a
nonempty `threadHash`, and a switch to `"de"`, the thread index is
still nonempty afterwards. -/
theorem setLocale_keeps_threadHash :
    (setLocale
        { forumLocale := some "fr", forumUpdateTime := true,
          postHash := [(5, post5fr)],
          threadHash := [("fr|5", [TPost.mk post5fr "fr|5"])] }
        "de").threadHash ≠ [] := by
  decide

/-- C2 (amended): on a call of `setLocale` with a locale different
from the loaded one, the post index is cleared, the last-refresh
timestamp is reset, and the locale is recorded — but the thread index
is left unchanged. -/
theorem setLocale_on_change (st : ForumState) (locale : String)
    (h : some locale ≠ st.forumLocale) :
    (setLocale st locale).forumLocale = some locale ∧
      (setLocale st locale).forumUpdateTime = false ∧
      (setLocale st locale).postHash = [] ∧
      (setLocale st locale).threadHash = st.threadHash := by
  unfold setLocale
  rw [if_pos h]
  exact ⟨rfl, rfl, rfl, rfl⟩

/-- Witness for the amended C2 at a concrete state. -/
theorem setLocale_on_change_witness :
    (setLocale
        { forumLocale := some "fr", forumUpdateTime := true,
          postHash := [(5, post5fr)],
          threadHash := [("fr|5", [TPost.mk post5fr "fr|5"])] }
        "de").forumLocale = some "de" ∧
      (setLocale
        { forumLocale := some "fr", forumUpdateTime := true,
          postHash := [(5, post5fr)],
          threadHash := [("fr|5", [TPost.mk post5fr "fr|5"])] }
        "de").forumUpdateTime = false ∧
      (setLocale
        { forumLocale := some "fr", forumUpdateTime := true,
          postHash := [(5, post5fr)],
          threadHash := [("fr|5", [TPost.mk post5fr "fr|5"])] }
        "de").postHash = [] ∧
      (setLocale
        { forumLocale := some "fr", forumUpdateTime := true,
          postHash := [(5, post5fr)],
          threadHash := [("fr|5", [TPost.mk post5fr "fr|5"])] }
        "de").threadHash = [("fr|5", [TPost.mk post5fr "fr|5"])] :=
  setLocale_on_change
    { forumLocale := some "fr", forumUpdateTime := true,
      postHash := [(5, post5fr)],
      threadHash := [("fr|5", [TPost.mk post5fr "fr|5"])] }
    "de" (by decide)

/-! ### Idempotence of full-set indexing (C3) -/

/-- C3: running the full-set indexing step twice in a row with the
same post list leaves the post index, the thread index, and the list
of posts with attached thread ids exactly as after the first run: on a
full set both runs rebuild everything from empty indices, from the
same input. -/
theorem updateForumData_fullSet_idempotent (fuel : Nat) (st : ForumState)
    (posts : List Post) :
    (updateForumData fuel (updateForumData fuel st posts true).1 posts true).1.postHash
        = (updateForumData fuel st posts true).1.postHash ∧
      (updateForumData fuel (updateForumData fuel st posts true).1 posts true).1.threadHash
        = (updateForumData fuel st posts true).1.threadHash ∧
      (updateForumData fuel (updateForumData fuel st posts true).1 posts true).2
        = (updateForumData fuel st posts true).2 :=
  ⟨rfl, rfl, rfl⟩

/-! ### Rendering: topic containers and orphan replies (C4) -/

/-- Membership is unchanged by keeping only first occurrences. -/
theorem mem_dedupKeepFirst {a : String} : ∀ {l : List String}, a ∈ dedupKeepFirst l ↔ a ∈ l := by
  intro l
  induction l using dedupKeepFirst.induct with
  | case1 => simp [dedupKeepFirst]
  | case2 x xs ih =>
    rw [dedupKeepFirst]
    constructor
    · intro h
      rcases List.mem_cons.mp h with rfl | h2
      · exact List.mem_cons_self _ _
      · exact List.mem_cons.mpr (Or.inr (List.mem_filter.mp (ih.mp h2)).1)
    · intro h
      rcases List.mem_cons.mp h with rfl | h2
      · exact List.mem_cons_self _ _
      · by_cases hax : a = x
        · subst hax; exact List.mem_cons_self _ _
        · refine List.mem_cons.mpr (Or.inr (ih.mpr ?_))
          exact List.mem_filter.mpr ⟨h2, by simp [bne_iff_ne, hax]⟩

/-- Keeping only first occurrences leaves no duplicates. -/
theorem nodup_dedupKeepFirst : ∀ (l : List String), (dedupKeepFirst l).Nodup := by
  intro l
  induction l using dedupKeepFirst.induct with
  | case1 => simp [dedupKeepFirst]
  | case2 x xs ih =>
    rw [dedupKeepFirst]
    refine List.nodup_cons.mpr ⟨?_, ih⟩
    intro hmem
    have h2 := (List.mem_filter.mp (mem_dedupKeepFirst.mp hmem)).2
    simp [bne_iff_ne] at h2

/-- C4: in the reparenting step of `parseContent`, a reply post
(`parent != -1`) whose parent id has no rendered post div is attached
directly under its own thread's topic container: the loop emits an
attachment for it (it is never dropped), and the container it is
attached to exists, because the topic-div creation loop made one for
every thread id occurring in the post list (so the
`topicDivs[post.threadId].appendChild` access cannot throw). -/
theorem reparent_orphan_to_thread (posts : List TPost) (tp : TPost)
    (hmem : tp ∈ posts) (hreply : tp.post.parent ≠ -1)
    (horphan : tp.post.parent ∉ postIds posts) :
    (tp.post.id, AttachTarget.thread tp.threadId) ∈ reparentAll posts ∧
      tp.threadId ∈ topicDivKeys posts := by
  have htarget : reparentTarget posts tp = AttachTarget.thread tp.threadId := by
    unfold reparentTarget
    rw [if_pos (by simpa [bne_iff_ne] using hreply)]
    rw [if_neg (by simpa [List.contains] using horphan)]
  constructor
  · have h1 : (tp.post.id, reparentTarget posts tp) ∈ reparentAll posts :=
      List.mem_map.mpr ⟨tp, hmem, rfl⟩
    rwa [htarget] at h1
  · exact mem_dedupKeepFirst.mpr (List.mem_map.mpr ⟨tp, hmem, rfl⟩)

/-- A reply `{id:9, parent:7}` whose parent `7` is not in the post
list: its root lookup stops at itself, so its thread id is `"fr|9"`. -/
def post9orphan : Post :=
  { id := 9, parent := 7, locale := "fr", xpath := "", subject := "", status := "", poster := 2 }

/-- Witness for C4: the orphan reply is attached under its own
thread's container, which the topic loop created. -/
theorem reparent_orphan_to_thread_witness :
    ((post9orphan.id, AttachTarget.thread "fr|9") ∈
        reparentAll [TPost.mk post5fr "fr|5", TPost.mk post9orphan "fr|9"]) ∧
      "fr|9" ∈ topicDivKeys [TPost.mk post5fr "fr|5", TPost.mk post9orphan "fr|9"] :=
  reparent_orphan_to_thread
    [TPost.mk post5fr "fr|5", TPost.mk post9orphan "fr|9"]
    (TPost.mk post9orphan "fr|9") (by decide) (by decide) (by decide)

/-! ### Assembling filtered threads (C5) -/

/-- Removing one id from a list commutes with the membership test the
assembly loop performs (`includes`). -/
theorem contains_filter_ne (fa : List String) (y t : String) :
    (fa.filter (fun id => id != t)).contains y = (fa.contains y && (y != t)) := by
  rw [Bool.eq_iff_iff]
  simp [List.contains, List.mem_filter, bne_iff_ne]

/-- First-occurrence deduplication commutes with removing one value. -/
theorem dedupKeepFirst_filter_comm (a : String) : (l : List String) →
    dedupKeepFirst (l.filter (fun y => y != a)) =
      (dedupKeepFirst l).filter (fun y => y != a)
  | [] => by simp [dedupKeepFirst]
  | x :: xs => by
    by_cases hxa : x = a
    · subst hxa
      have h1 : (x :: xs).filter (fun y => y != x) = xs.filter (fun y => y != x) := by simp
      rw [h1, dedupKeepFirst_filter_comm x xs]
      rw [dedupKeepFirst]
      rw [List.filter_cons_of_neg (by simp)]
      rw [dedupKeepFirst_filter_comm x xs]
      rw [List.filter_filter]
      simp
    · have h1 : (x :: xs).filter (fun y => y != a) = x :: xs.filter (fun y => y != a) := by
        simp [bne_iff_ne, hxa]
      rw [h1, dedupKeepFirst, dedupKeepFirst]
      rw [List.filter_cons_of_pos (by simp [bne_iff_ne, hxa])]
      congr 1
      have h2 : (xs.filter (fun y => y != a)).filter (fun y => y != x) =
          (xs.filter (fun y => y != x)).filter (fun y => y != a) := by
        rw [List.filter_filter, List.filter_filter]
        exact List.filter_congr (fun b _ => Bool.and_comm _ _)
      rw [h2]
      exact dedupKeepFirst_filter_comm a (xs.filter (fun y => y != x))
termination_by l => l.length
decreasing_by
  all_goals simp only [List.length_cons]
  all_goals first
    | exact Nat.lt_succ_self _
    | exact Nat.lt_succ_of_le (List.length_filter_le _ _)

/-- The assembly loop emits exactly the thread ids of the first
occurrences, in input order, restricted to ids in `filteredArray`. -/
theorem filterAndAssemble_eq (posts : List TPost) : ∀ (fa : List String),
    filterAndAssembleForumThreads posts fa =
      (dedupKeepFirst (posts.map TPost.threadId)).filter (fun id => fa.contains id) := by
  induction posts with
  | nil => intro fa; simp [filterAndAssembleForumThreads, dedupKeepFirst]
  | cons tp rest ih =>
    intro fa
    rw [filterAndAssembleForumThreads, List.map_cons, dedupKeepFirst]
    by_cases hin : fa.contains tp.threadId
    · rw [if_pos hin, List.filter_cons_of_pos hin]
      congr 1
      rw [ih (fa.filter (fun id => id != tp.threadId))]
      rw [dedupKeepFirst_filter_comm, List.filter_filter]
      have h3 : (fun id => (fa.filter (fun id2 => id2 != tp.threadId)).contains id) =
          (fun a => fa.contains a && (a != tp.threadId)) :=
        funext (fun y => contains_filter_ne fa y tp.threadId)
      rw [h3]
    · rw [if_neg hin, List.filter_cons_of_neg hin]
      rw [ih fa, dedupKeepFirst_filter_comm, List.filter_filter]
      apply List.filter_congr
      intro aa _
      simp only [Bool.not_eq_true] at hin
      by_cases haa : aa = tp.threadId
      · subst haa
        rw [hin]
        simp
      · simp [bne_iff_ne, haa]

/-- C5: on a newest-first post list, the assembled output of
`filterAndAssembleForumThreads` is exactly the thread ids occurring in
the post list, first occurrence first (so threads are ordered by the
position of their newest post in the newest-first input), restricted
to the ids passing the external filter; and it has no duplicates, so
each passing thread's container is appended exactly once. -/
theorem filterAndAssembleForumThreads_order (posts : List TPost)
    (filteredArray : List String) :
    filterAndAssembleForumThreads posts filteredArray =
      (dedupKeepFirst (posts.map TPost.threadId)).filter
        (fun id => filteredArray.contains id) ∧
      (filterAndAssembleForumThreads posts filteredArray).Nodup := by
  refine ⟨filterAndAssemble_eq posts filteredArray, ?_⟩
  rw [filterAndAssemble_eq posts filteredArray]
  exact (nodup_dedupKeepFirst _).filter _

/-! ### Thread lists keep input order (C10) -/

/-- Looking a key up past a block that does not contain it. -/
theorem lookup_append_of_none {alpha beta : Type} [BEq alpha] {k : alpha} :
    ∀ {l₁ : List (alpha × beta)} (l₂ : List (alpha × beta)), l₁.lookup k = none →
      (l₁ ++ l₂).lookup k = l₂.lookup k := by
  intro l₁
  induction l₁ with
  | nil => intro l₂ _; rfl
  | cons e t ih =>
    obtain ⟨k', v⟩ := e
    intro l₂ hl
    rw [List.lookup_cons] at hl
    rw [List.cons_append, List.lookup_cons]
    cases hbeq : k == k' with
    | true => rw [hbeq] at hl; cases hl
    | false =>
      rw [hbeq] at hl
      exact ih l₂ hl

/-- Looking a key up in a block that contains it ignores the rest. -/
theorem lookup_append_of_some {alpha beta : Type} [BEq alpha] {k : alpha} {v : beta} :
    ∀ {l₁ : List (alpha × beta)} (l₂ : List (alpha × beta)), l₁.lookup k = some v →
      (l₁ ++ l₂).lookup k = some v := by
  intro l₁
  induction l₁ with
  | nil => intro l₂ hl; cases hl
  | cons e t ih =>
    obtain ⟨k', v'⟩ := e
    intro l₂ hl
    rw [List.lookup_cons] at hl
    rw [List.cons_append, List.lookup_cons]
    cases hbeq : k == k' with
    | true => rw [hbeq] at hl; exact hl
    | false =>
      rw [hbeq] at hl
      exact ih l₂ hl

/-- Lookup after updating (in place) the entry of one thread id. -/
theorem lookup_threadPut_map (tp : TPost) :
    ∀ (tH : ThreadHash) (k : String),
      (tH.map (fun e => if e.1 = tp.threadId then (e.1, e.2 ++ [tp]) else e)).lookup k =
        if k = tp.threadId then (tH.lookup k).map (fun l => l ++ [tp])
        else tH.lookup k := by
  intro tH
  induction tH with
  | nil => intro k; by_cases hk : k = tp.threadId <;> simp [hk]
  | cons e t ih =>
    obtain ⟨k', v⟩ := e
    intro k
    by_cases hk' : k' = tp.threadId
    · by_cases hk : k = k'
      · have hkt : k = tp.threadId := hk.trans hk'
        have hb : (k == k') = true := by simp [hk]
        simp [List.lookup_cons, hk', hb, hkt, ih]
      · have hkt : ¬k = tp.threadId := fun h => hk (h.trans hk'.symm)
        have hb : (k == k') = false := by simp [hk]
        have hbt : (k == tp.threadId) = false := by simp [hkt]
        simp [List.lookup_cons, hk', hb, hkt, hbt, ih]
    · by_cases hk : k = k'
      · have hb : (k == k') = true := by simp [hk]
        have hkt : ¬k = tp.threadId := fun h => hk' (hk.symm.trans h)
        simp [List.lookup_cons, hk', hb, hkt]
      · have hb : (k == k') = false := by simp [hk]
        simp [List.lookup_cons, hk', hb, ih]

/-- Lookup after one `threadPut`: the post's own thread gains the post
at the end of its list (a fresh singleton list if the thread was new);
other thread ids are untouched. -/
theorem lookup_threadPut (tH : ThreadHash) (tp : TPost) (k : String) :
    (threadPut tH tp).lookup k =
      if k = tp.threadId then some ((tH.lookup tp.threadId).getD [] ++ [tp])
      else tH.lookup k := by
  unfold threadPut
  cases hl : tH.lookup tp.threadId with
  | some l =>
    rw [if_pos (by simp)]
    rw [lookup_threadPut_map tp tH k]
    by_cases hk : k = tp.threadId
    · subst hk
      rw [if_pos rfl, if_pos rfl, hl]
      rfl
    · rw [if_neg hk, if_neg hk]
  | none =>
    rw [if_neg (by simp)]
    by_cases hk : k = tp.threadId
    · subst hk
      rw [lookup_append_of_none _ hl]
      rw [if_pos rfl]
      simp [List.lookup_cons]
    · rw [if_neg hk]
      cases hk2 : tH.lookup k with
      | some l2 => rw [lookup_append_of_some _ hk2]
      | none =>
        rw [lookup_append_of_none _ hk2]
        rw [List.lookup_cons]
        have hb : (k == tp.threadId) = false := by simp [hk]
        rw [hb]
        rfl

/-- `updateThreadHash` appends, to each already-present thread list,
exactly the matching posts in input order. -/
theorem lookup_updateThreadHash_some :
    ∀ (posts : List TPost) (tH : ThreadHash) (k : String) (l : List TPost),
      tH.lookup k = some l →
      (updateThreadHash tH posts).lookup k =
        some (l ++ posts.filter (fun tp => tp.threadId == k)) := by
  intro posts
  induction posts with
  | nil =>
    intro tH k l hl
    simp [updateThreadHash, hl]
  | cons tp rest ih =>
    intro tH k l hl
    show (updateThreadHash (threadPut tH tp) rest).lookup k = _
    by_cases htid : tp.threadId = k
    · have h2 : (threadPut tH tp).lookup k = some (l ++ [tp]) := by
        rw [lookup_threadPut, if_pos htid.symm, htid, hl]
        rfl
      rw [ih _ _ _ h2]
      rw [List.filter_cons_of_pos (by simp [htid])]
      simp
    · have h2 : (threadPut tH tp).lookup k = some l := by
        rw [lookup_threadPut, if_neg (fun h => htid h.symm), hl]
      rw [ih _ _ _ h2]
      rw [List.filter_cons_of_neg (by simp [htid])]

/-- For a thread id not yet in the hash, `updateThreadHash` creates
exactly the list of matching posts, in input order (or no entry when
there is no matching post). -/
theorem lookup_updateThreadHash_none :
    ∀ (posts : List TPost) (tH : ThreadHash) (k : String),
      tH.lookup k = none →
      (updateThreadHash tH posts).lookup k =
        if (posts.filter (fun tp => tp.threadId == k)).isEmpty then none
        else some (posts.filter (fun tp => tp.threadId == k)) := by
  intro posts
  induction posts with
  | nil =>
    intro tH k hl
    simp [updateThreadHash, hl]
  | cons tp rest ih =>
    intro tH k hl
    show (updateThreadHash (threadPut tH tp) rest).lookup k = _
    by_cases htid : tp.threadId = k
    · have h2 : (threadPut tH tp).lookup k = some [tp] := by
        rw [lookup_threadPut, if_pos htid.symm, htid, hl]
        rfl
      rw [lookup_updateThreadHash_some rest _ _ _ h2]
      rw [List.filter_cons_of_pos (by simp [htid])]
      simp
    · have h2 : (threadPut tH tp).lookup k = none := by
        rw [lookup_threadPut, if_neg (fun h => htid h.symm), hl]
      rw [ih _ _ h2]
      rw [List.filter_cons_of_neg (by simp [htid])]

/-- C10: after a full-set `updateForumData` run, every per-thread list
in the thread index is exactly the sublist of the input (newest-first)
posts belonging to that thread — relative input order is preserved —
and for every indexed post, `getNewestPostInThread` returns the first
post of its thread in the input list (the thread's newest post), and
in particular returns something (`threadHash[threadId][0]` cannot
fail). -/
theorem updateForumData_thread_lists (fuel : Nat) (st : ForumState) (posts : List Post) :
    (∀ tid l,
      ((updateForumData fuel st posts true).1.threadHash).lookup tid = some l →
        l = (updateForumData fuel st posts true).2.filter
          (fun tp => tp.threadId == tid)) ∧
      (∀ tp, tp ∈ (updateForumData fuel st posts true).2 →
        getNewestPostInThread (updateForumData fuel st posts true).1.threadHash tp =
          (updateForumData fuel st posts true).2.find?
            (fun x => x.threadId == tp.threadId) ∧
        ∃ q, getNewestPostInThread
          (updateForumData fuel st posts true).1.threadHash tp = some q) := by
  have hTH : (updateForumData fuel st posts true).1.threadHash =
      updateThreadHash [] (updateForumData fuel st posts true).2 := rfl
  constructor
  · intro tid l hl
    rw [hTH, lookup_updateThreadHash_none _ [] tid rfl] at hl
    by_cases he : ((updateForumData fuel st posts true).2.filter
        (fun tp => tp.threadId == tid)).isEmpty
    · rw [if_pos he] at hl
      cases hl
    · rw [if_neg he] at hl
      exact ((Option.some.injEq _ _).mp hl).symm
  · intro tp hmem
    have hmemf : tp ∈ (updateForumData fuel st posts true).2.filter
        (fun x => x.threadId == tp.threadId) :=
      List.mem_filter.mpr ⟨hmem, by simp⟩
    have hne : ¬((updateForumData fuel st posts true).2.filter
        (fun x => x.threadId == tp.threadId)).isEmpty := by
      intro he
      rw [List.isEmpty_iff] at he
      rw [he] at hmemf
      cases hmemf
    have hlook : (updateThreadHash [] (updateForumData fuel st posts true).2).lookup
        tp.threadId =
        some ((updateForumData fuel st posts true).2.filter
          (fun x => x.threadId == tp.threadId)) := by
      rw [lookup_updateThreadHash_none _ [] _ rfl, if_neg hne]
    have hmain : getNewestPostInThread
        (updateForumData fuel st posts true).1.threadHash tp =
        (updateForumData fuel st posts true).2.find?
          (fun x => x.threadId == tp.threadId) := by
      unfold getNewestPostInThread
      rw [hTH, hlook]
      exact List.filter_head? _ _
    refine ⟨hmain, ?_⟩
    rw [hmain]
    have hsome : ((updateForumData fuel st posts true).2.find?
        (fun x => x.threadId == tp.threadId)).isSome :=
      List.find?_isSome.mpr ⟨tp, hmem, by simp⟩
    exact Option.isSome_iff_exists.mp hsome

/-- Witness for C10 on the example thread, listed newest-first
(`post9fr` is the newest): its thread list is the whole input in
order, and `getNewestPostInThread` at the oldest post returns the
newest one. -/
theorem updateForumData_thread_lists_witness :
    ([TPost.mk post9fr "fr|5", TPost.mk post5fr "fr|5"] =
      (updateForumData 2 initialForumState [post9fr, post5fr] true).2.filter
        (fun tp => tp.threadId == "fr|5")) ∧
    (getNewestPostInThread
        (updateForumData 2 initialForumState [post9fr, post5fr] true).1.threadHash
        (TPost.mk post5fr "fr|5") =
      (updateForumData 2 initialForumState [post9fr, post5fr] true).2.find?
        (fun x => x.threadId == (TPost.mk post5fr "fr|5").threadId) ∧
      ∃ q, getNewestPostInThread
        (updateForumData 2 initialForumState [post9fr, post5fr] true).1.threadHash
        (TPost.mk post5fr "fr|5") = some q) :=
  ⟨(updateForumData_thread_lists 2 initialForumState [post9fr, post5fr]).1 "fr|5"
      [TPost.mk post9fr "fr|5", TPost.mk post5fr "fr|5"] (by decide),
   (updateForumData_thread_lists 2 initialForumState [post9fr, post5fr]).2
      (TPost.mk post5fr "fr|5") (by decide)⟩

/-! ### Allowed post-type verbs (C6) -/

/-- Counterexample to C6 as stated: the source guards `Request` with
JS truthiness (`myValue && !isReply`), not with non-nullness.  For a
new top-level post with the non-null voted value `""`, the returned
verb set is just `["Discuss"]`, without `"Request"`. -/
theorem getStatusOptions_request_empty_string :
    getStatusOptions (fun _ => false) [] none false false none (some "")
        = some ["Discuss"] ∧
      "Request" ∉ ["Discuss"] ∧ (some "" : Option String) ≠ none := by
  refine ⟨by decide, by decide, by decide⟩

/-- C6 (amended): whenever `getStatusOptions` returns a verb set
(it throws only for a reply with a null first post), `Discuss` is
always in it; `Request` is in it exactly when the post is a new
top-level post (not a reply) and `myValue` is truthy (non-null and
non-empty); and `Agree` and `Decline` are in it exactly when the post
is a reply, the thread's first post has status `Request`, and the
current user is not the poster of that first post. -/
theorem getStatusOptions_membership (passIfClosed : Option (List TPost) → Bool)
    (tH : ThreadHash) (surveyUser : Option Int) (isTC : Bool) (isReply : Bool)
    (firstPost : Option TPost) (myValue : Option String) (opts : List String)
    (hopts : getStatusOptions passIfClosed tH surveyUser isTC isReply firstPost myValue
      = some opts) :
    ("Discuss" ∈ opts) ∧
      (("Request" ∈ opts) ↔ (isReply = false ∧ truthy myValue = true)) ∧
      (("Agree" ∈ opts) ↔ (isReply = true ∧ ∃ fp, firstPost = some fp ∧
        userIsPoster surveyUser fp.post = false ∧ fp.post.status = "Request")) ∧
      (("Decline" ∈ opts) ↔ (isReply = true ∧ ∃ fp, firstPost = some fp ∧
        userIsPoster surveyUser fp.post = false ∧ fp.post.status = "Request")) := by
  unfold getStatusOptions at hopts
  rw [Option.map_eq_some'] at hopts
  obtain ⟨canClose, hcc, hopts⟩ := hopts
  subst hopts
  cases isReply with
  | false =>
    simp only [userCanClose, if_neg (by simp : ¬(false = true))] at hcc
    cases htr : truthy myValue <;> cases canClose <;>
      simp_all [List.mem_append, List.mem_cons]
  | true =>
    cases firstPost with
    | none => simp [userCanClose] at hcc
    | some fp =>
      cases hcond : (!userIsPoster surveyUser fp.post && (fp.post.status == "Request")) with
      | true =>
        have h1 := hcond
        rw [Bool.and_eq_true, Bool.not_eq_true'] at h1
        obtain ⟨hup, hst⟩ := h1
        rw [beq_iff_eq] at hst
        cases canClose <;> simp_all [List.mem_append, List.mem_cons]
      | false =>
        have h1 : ¬(userIsPoster surveyUser fp.post = false ∧ fp.post.status = "Request") := by
          intro ⟨hup, hst⟩
          rw [hup, hst] at hcond
          simp at hcond
        cases canClose <;> simp_all [List.mem_append, List.mem_cons]

/-- Witness for the amended C6: a voter's new top-level post offers
`Request` and `Discuss`. -/
theorem getStatusOptions_membership_witness :
    ("Discuss" ∈ ["Request", "Discuss"]) ∧
      (("Request" ∈ ["Request", "Discuss"]) ↔
        (false = false ∧ truthy (some "v") = true)) ∧
      (("Agree" ∈ ["Request", "Discuss"]) ↔ (false = true ∧ ∃ fp,
        (none : Option TPost) = some fp ∧
        userIsPoster none fp.post = false ∧ fp.post.status = "Request")) ∧
      (("Decline" ∈ ["Request", "Discuss"]) ↔ (false = true ∧ ∃ fp,
        (none : Option TPost) = some fp ∧
        userIsPoster none fp.post = false ∧ fp.post.status = "Request")) :=
  getStatusOptions_membership (fun _ => false) [] none false false none (some "v")
    ["Request", "Discuss"] (by decide)

/-! ### Closed threads cannot be closed again (C7) -/

/-- C7: once a thread is already closed (`threadIsClosed` is true for
its first post), `userCanClose` returns false for every actor —
original poster or Technical Committee member alike — and `Close` is
not among the allowed verbs `getStatusOptions` returns. -/
theorem userCanClose_closed_thread (passIfClosed : Option (List TPost) → Bool)
    (tH : ThreadHash) (surveyUser : Option Int) (isTC : Bool) (isReply : Bool)
    (fp : TPost) (myValue : Option String)
    (hclosed : threadIsClosed passIfClosed tH fp = true) :
    userCanClose passIfClosed tH surveyUser isTC isReply (some fp) = some false ∧
      ∀ opts,
        getStatusOptions passIfClosed tH surveyUser isTC isReply (some fp) myValue
          = some opts → "Close" ∉ opts := by
  have hcc : userCanClose passIfClosed tH surveyUser isTC isReply (some fp) = some false := by
    cases isReply with
    | false => rfl
    | true => simp [userCanClose, hclosed]
  refine ⟨hcc, ?_⟩
  intro opts hopts
  unfold getStatusOptions at hopts
  rw [hcc] at hopts
  rw [Option.map_some'] at hopts
  have hopts2 := (Option.some.injEq _ _).mp hopts
  subst hopts2
  cases isReply <;>
    cases htr : truthy myValue <;>
    cases hcond : (!userIsPoster surveyUser fp.post && (fp.post.status == "Request")) <;>
    simp_all [List.mem_append, List.mem_cons]

/-- Witness for C7: an always-closed thread, with the actor a TC
member replying — closing is still refused and `Close` is absent. -/
theorem userCanClose_closed_thread_witness :
    userCanClose (fun _ => true) [] none true true (some (TPost.mk post5fr "fr|5"))
        = some false ∧
      "Close" ∉ ["Discuss"] := by
  have h := userCanClose_closed_thread (fun _ => true) [] none true true
    (TPost.mk post5fr "fr|5") none (by decide)
  exact ⟨h.1, h.2 ["Discuss"] (by decide)⟩

/-! ### Reply subjects (C8) -/

/-- A parent post whose (decoded) subject starts with the three
characters `"Re:"` but not with the four-character prefix `"Re: "`. -/
def postReNoSpace : Post :=
  { id := 5, parent := -1, locale := "fr", xpath := "", subject := "Re:x", status := "", poster := 1 }

/-- Counterexample to C8 as stated: the source tests
`subject.substring(0, 3) != 'Re:'` — three characters, no space — but
the claim's prefix is the four-character `"Re: "`.  For the parent
subject `"Re:x"` that prefix is absent, yet nothing is prepended, so
the result differs from the spec-modelled synthesized subject. -/
theorem makePostSubject_ne_spec :
    makePostSubject true (some postReNoSpace) "" = "Re:x" ∧
      makePostSubjectSpec true (some postReNoSpace) "" = "Re: Re:x" ∧
      makePostSubject true (some postReNoSpace) ""
        ≠ makePostSubjectSpec true (some postReNoSpace) "" := by
  refine ⟨by decide, by decide, by decide⟩

/-- C8 (amended): for a reply with a parent post, the synthesized
subject is the parent's html-decoded subject, with `"Re: "` prepended
exactly when the decoded subject's first three characters are not
`"Re:"`; it is the decoded subject unchanged when they are.  For a
non-reply, or a reply without a parent, the supplied subject parameter
is returned unchanged. -/
theorem makePostSubject_re_prefix (pp : Post) (sp : String) :
    makePostSubject false (some pp) sp = sp ∧
      makePostSubject true none sp = sp ∧
      makePostSubject true (some pp) sp =
        (if (post2text (some pp.subject)).take 3 = "Re:"
         then post2text (some pp.subject)
         else "Re: " ++ post2text (some pp.subject)) := by
  refine ⟨rfl, rfl, ?_⟩
  by_cases h : (post2text (some pp.subject)).take 3 = "Re:" <;>
    simp [makePostSubject, h]
